import Mathlib

/-!
Verification development for the migration engine of input-remapper
(src/inputremapper/migrations.py).

The Python module is shallowly embedded: JSON documents become the inductive
type JVal, Python dicts become association lists with Python's in-place
update / pop / insertion-order semantics, the configuration directory tree
becomes the World structure holding exactly the paths the module touches,
and each migration function becomes a Lean function of the same name.
Fallible Python code (uncaught exceptions such as json.decoder.JSONDecodeError,
AttributeError, TypeError and macro-parser failures) is modelled with
Except String.  External collaborators (the macro parser, the symbol lookup
table, the virtual-uinput registry and the application version constant) are
not part of the source under study; they are passed in through the Env
structure, modelled from the spec's description of their interfaces.
-/

/-- A JSON value, as produced by Python's json.load. -/
inductive JVal where
  | str (s : String)
  | num (n : Int)
  | bool (b : Bool)
  | null
  | list (xs : List JVal)
  | obj (fields : List (String × JVal))

/-- Lookup in a Python dict (association list; keys of parsed JSON dicts are
unique, lookup returns the first binding). -/
def dictGet (d : List (String × JVal)) (k : String) : Option JVal :=
  match d with
  | [] => none
  | (k', v) :: rest => if k' = k then some v else dictGet rest k

/-- Python dict item assignment d[k] = v: replaces the value in place when the
key is present (keeping its position), otherwise appends the new binding at
the end (insertion order). -/
def pySet (d : List (String × JVal)) (k : String) (v : JVal) :
    List (String × JVal) :=
  match d with
  | [] => [(k, v)]
  | (k', v') :: rest =>
    if k' = k then (k', v) :: rest else (k', v') :: pySet rest k v

/-- The removal effect of Python's d.pop(k): the dict without the first
binding of k, other bindings kept in order. -/
def pyRemove (d : List (String × JVal)) (k : String) : List (String × JVal) :=
  match d with
  | [] => []
  | (k', v') :: rest => if k' = k then rest else (k', v') :: pyRemove rest k

/-- The keys of a Python dict, in insertion order (dict.keys()). -/
def keysOf (d : List (String × JVal)) : List String :=
  d.map Prod.fst

/-- Byte content of a file, abstracted to what the migration code can
distinguish: `pretty v` is exactly json.dump(v, indent=4) (which never ends
in a newline character), `prettyNL v` is the same followed by a single
newline, and `foreign raw parsed` is any other byte string together with the
result of attempting json.load on it (none when loading raises
json.decoder.JSONDecodeError). -/
inductive Dump where
  | pretty (v : JVal)
  | prettyNL (v : JVal)
  | foreign (raw : String) (parsed : Option JVal)

/-- Result of json.load on a file's bytes: none means JSONDecodeError. -/
def parseFile : Dump → Option JVal
  | .pretty v => some v
  | .prettyNL v => some v
  | .foreign _ p => p

/-- Whether the file's bytes end with a newline character. pretty-printed
json.dump output always ends with a closing token, never a newline. -/
def dumpEndsNL : Dump → Bool
  | .pretty _ => false
  | .prettyNL _ => true
  | .foreign s _ => s.endsWith "\n"

/-- A parsed semantic version, represented as an ordered (major, minor,
patch) triple with lexicographic comparison, following the spec's design
note for the external pkg_resources.parse_version convention. -/
structure Ver where
  major : Nat
  minor : Nat
  patch : Nat
deriving DecidableEq

/-- Split a character list at every dot (the shape of str.split). -/
def splitDots : List Char → List (List Char)
  | [] => [[]]
  | c :: cs =>
    let r := splitDots cs
    if c = '.' then [] :: r
    else
      match r with
      | [] => [[c]]
      | h :: t => (c :: h) :: t

/-- Numeric value of one dotted component; a non-numeric component counts
as 0. -/
def compToNat (cs : List Char) : Nat :=
  if cs ≠ [] ∧ cs.all (fun c => c.isDigit) then
    cs.foldl (fun n c => n * 10 + (c.toNat - 48)) 0
  else 0

/-- Modelled from the spec: pkg_resources.parse_version, restricted to the
plain dotted-numeric versions the migration module compares; a missing or
non-numeric component counts as 0.  Total: it never fails. -/
def parseVer (s : String) : Ver :=
  match (splitDots s.data).map compToNat with
  | a :: b :: c :: _ => ⟨a, b, c⟩
  | [a, b] => ⟨a, b, 0⟩
  | [a] => ⟨a, 0, 0⟩
  | [] => ⟨0, 0, 0⟩

/-- Strict lexicographic order on versions (Version.__lt__). -/
def verLt (a b : Ver) : Bool :=
  decide (a.major < b.major ∨ (a.major = b.major ∧
    (a.minor < b.minor ∨ (a.minor = b.minor ∧ a.patch < b.patch))))

/-- A capability set: the EV_KEY and EV_REL event codes required by a symbol
or offered by a uinput device (sets modelled as lists, used only through
membership). -/
structure Caps where
  keys : List Nat
  rels : List Nat

/-- Boolean set inclusion (Python set.issubset). -/
def subsetB (a b : List Nat) : Bool :=
  a.all (fun x => b.contains x)

/-- The external collaborators of migrations.py, modelled from the spec.
appVersion is the application VERSION string; devices is the
global_uinputs.devices registry as an ordered list of (name, capabilities)
in registration order; resolveCaps is the capability-gathering step of
_find_target (lines 152-156 of the source: is_this_a_macro, then either
parse(symbol).get_capabilities() or a singleton from system_mapping.get),
which per the spec may fail on malformed macro syntax or on an unknown
symbol name. -/
structure Env where
  appVersion : String
  devices : List (String × Caps)
  resolveCaps : String → Except String Caps

/-- A per-group directory under presets/, holding preset .json files as
(file name, byte content) pairs in directory order. -/
structure GroupDir where
  name : String
  files : List (String × Dump)

/-- The configuration root directory (CONFIG_PATH): the config.json file,
the deprecated extensionless config file, the presets/ subdirectory (none
when it does not exist) and the remaining top-level subdirectories (the
legacy per-group preset directories). -/
structure ConfigRoot where
  configJson : Option Dump
  configPlain : Option Dump
  presets : Option (List GroupDir)
  groups : List GroupDir

/-- The filesystem state the module touches: the configuration root (none
when CONFIG_PATH does not exist) and the legacy key-mapper config root under
HOME/.config (none when absent). -/
structure World where
  root : Option ConfigRoot
  legacy : Option ConfigRoot

/-- config_version(): read the version string from config.json.  Mirrors the
source exactly: 0.0.0 when the file is absent, the parsed version field when
present; an uncaught exception (json.load on undecodable bytes, .keys() on a
non-dict document, parse_version on a non-string field) is an error. -/
def config_version (w : World) : Except String Ver :=
  match w.root with
  | none => .ok (parseVer "0.0.0")
  | some r =>
    match r.configJson with
    | none => .ok (parseVer "0.0.0")
    | some d =>
      match parseFile d with
      | none => .error "JSONDecodeError"
      | some (JVal.obj config) =>
        match dictGet config "version" with
        | some (JVal.str s) => .ok (parseVer s)
        | some _ => .error "TypeError"
        | none => .ok (parseVer "0.0.0")
      | some _ => .error "AttributeError"

/-- _config_suffix(): rename the deprecated extensionless config file to
config.json when the former exists and the latter does not. -/
def config_suffix (w : World) : World :=
  match w.root with
  | none => w
  | some r =>
    match r.configPlain, r.configJson with
    | some d, none =>
      { w with root := some { r with configJson := some d, configPlain := none } }
    | _, _ => w

/-- _preset_path(): when the presets/ subdirectory does not yet exist and
CONFIG_PATH does, create presets/ and move every top-level directory under
CONFIG_PATH into it (os.listdir + os.path.isdir + os.rename with the
CONFIG_PATH part of the path replaced), preserving each group's name and
listing order. -/
def preset_path (w : World) : World :=
  match w.root with
  | none => w
  | some r =>
    match r.presets with
    | some _ => w
    | none =>
      { w with root := some { r with presets := some r.groups, groups := [] } }

/-- _rename_config(): move the legacy .config/key-mapper tree to CONFIG_PATH
when the latter does not exist and the former does. -/
def rename_config (w : World) : World :=
  match w.root, w.legacy with
  | none, some l => { root := some l, legacy := none }
  | _, _ => w

/-- Number of comma separators in a mapping key (str.count). -/
def commaCount (s : String) : Nat :=
  s.toList.count ','

/-- One iteration of the _mapping_keys key loop for snapshot key k:
when k has exactly one comma, pop it from the dict and re-insert its value
under k ++ ",1" (Python evaluates the pop first, then assigns; assignment
replaces in place when the 3-component key already exists, else appends).
Keys of a parsed JSON dict are unique, so a snapshot key is always still
present at its turn and dict.pop cannot raise; the impossible branch leaves
the dict unchanged. -/
def keyStep (d : List (String × JVal)) (k : String) : List (String × JVal) :=
  if commaCount k = 1 then
    match dictGet d k with
    | some v => pySet (pyRemove d k) (k ++ ",1") v
    | none => d
  else d

/-- The per-mapping transform of _mapping_keys: iterate over a deep copy of
the mapping's keys (the snapshot) and normalize each legacy 2-component key. -/
def migrateKeys (m : List (String × JVal)) : List (String × JVal) :=
  (keysOf m).foldl keyStep m

/-- The per-file body of _mapping_keys: json.load (JSONDecodeError is caught
and the file skipped with its bytes unchanged), normalize the keys of the
mapping field when present, then rewrite the file unconditionally with
json.dump(indent=4) plus a trailing newline.  A document or mapping field on
which .keys() does not exist raises AttributeError (uncaught in the
source). -/
def mapping_keys_file (d : Dump) : Except String Dump :=
  match parseFile d with
  | none => .ok d
  | some (JVal.obj preset) =>
    match dictGet preset "mapping" with
    | none => .ok (.prettyNL (JVal.obj preset))
    | some (JVal.obj m) =>
      .ok (.prettyNL (JVal.obj (pySet preset "mapping" (JVal.obj (migrateKeys m)))))
    | some _ => .error "AttributeError"
  | some _ => .error "AttributeError"

/-- The device loop of _find_target (lines 161-163 of the source): the first
uinput of the registry, in registration order, whose EV_KEY capability set
contains all required key codes; none when no uinput qualifies. -/
def firstDevice (keys : List Nat) : List (String × Caps) → Option String
  | [] => none
  | (name, uinput) :: rest =>
    if subsetB keys uinput.keys then some name else firstDevice keys rest

/-- _find_target(symbol): the capability set of the symbol comes from the
modelled collaborators (env.resolveCaps, lines 152-156 of the source); any
relative-motion requirement resolves to mouse, otherwise the first uinput
with sufficient key capabilities, otherwise none. -/
def find_target (env : Env) (symbol : String) : Except String (Option String) :=
  match env.resolveCaps symbol with
  | .error e => .error e
  | .ok capabilities =>
    if capabilities.rels.length > 0 then .ok (some "mouse")
    else .ok (firstDevice capabilities.keys env.devices)

/-- The annotation _add_target appends to a symbol no uinput can handle. -/
def brokenNote : String :=
  "\n# Broken mapping:\n# No target can handle all specified keycodes"

/-- The per-entry body of the _add_target mapping loop: a value that is
already a list is skipped; a bare symbol string is resolved and replaced by
the pair [symbol, target], falling back to keyboard plus the broken-mapping
annotation when no target is found; a resolution failure propagates; any
other value type makes the external macro detector raise (TypeError). -/
def add_target_entry (env : Env) (v : JVal) : Except String (Option JVal) :=
  match v with
  | JVal.list _ => .ok none
  | JVal.str symbol =>
    match find_target env symbol with
    | .error e => .error e
    | .ok (some target) => .ok (some (JVal.list [JVal.str symbol, JVal.str target]))
    | .ok none =>
      .ok (some (JVal.list [JVal.str (symbol ++ brokenNote), JVal.str "keyboard"]))
  | _ => .error "TypeError"

/-- One pass of the _add_target mapping loop: iterate over the items of the
copied snapshot and assign each transformed value back into the live dict in
place; the first uncaught failure propagates. -/
def add_target_loop (env : Env) (items : List (String × JVal))
    (d : List (String × JVal)) : Except String (List (String × JVal)) :=
  match items with
  | [] => .ok d
  | (k, v) :: rest =>
    match add_target_entry env v with
    | .error e => .error e
    | .ok none => add_target_loop env rest d
    | .ok (some v') => add_target_loop env rest (pySet d k v')

/-- The mapping loop of _add_target, started on a copy of the items. -/
def add_target_mapping (env : Env) (m : List (String × JVal)) :
    Except String (List (String × JVal)) :=
  add_target_loop env m m

/-- The per-file body of _add_target: json.load (JSONDecodeError caught,
file skipped unchanged), skip without rewriting when there is no mapping
field, otherwise transform every entry and rewrite the file with
json.dump(indent=4) plus a trailing newline.  A failing entry aborts before
the rewrite, leaving the file's bytes unchanged and propagating the error. -/
def add_target_file (env : Env) (d : Dump) : Except String Dump :=
  match parseFile d with
  | none => .ok d
  | some (JVal.obj preset) =>
    match dictGet preset "mapping" with
    | none => .ok d
    | some (JVal.obj m) =>
      match add_target_mapping env m with
      | .error e => .error e
      | .ok m2 => .ok (.prettyNL (JVal.obj (pySet preset "mapping" (JVal.obj m2))))
    | some _ => .error "AttributeError"
  | some _ => .error "AttributeError"

/-- Process the preset files of one group in order with a per-file step; an
uncaught exception from one file stops the loop there: that file and the
following ones keep their bytes, files already rewritten stay rewritten. -/
def runFiles (step : Dump → Except String Dump) :
    List (String × Dump) → List (String × Dump) × Option String
  | [] => ([], none)
  | (n, d) :: rest =>
    match step d with
    | .error e => ((n, d) :: rest, some e)
    | .ok d' =>
      let r := runFiles step rest
      ((n, d') :: r.1, r.2)

/-- Process all groups in order (the all_presets() iteration order),
propagating an uncaught exception and keeping already-written files. -/
def runGroups (step : Dump → Except String Dump) :
    List GroupDir → List GroupDir × Option String
  | [] => ([], none)
  | g :: rest =>
    let fr := runFiles step g.files
    match fr.2 with
    | some e => ({ g with files := fr.1 } :: rest, some e)
    | none =>
      let rr := runGroups step rest
      ({ g with files := fr.1 } :: rr.1, rr.2)

/-- The shared shape of _mapping_keys and _add_target: return immediately
when the presets directory does not exist, otherwise run the per-file step
over every preset of every group. -/
def runStep (step : Dump → Except String Dump) (w : World) :
    World × Option String :=
  match w.root with
  | none => (w, none)
  | some r =>
    match r.presets with
    | none => (w, none)
    | some gs =>
      let gr := runGroups step gs
      ({ w with root := some { r with presets := some gr.1 } }, gr.2)

/-- _mapping_keys(): normalize the mapping keys of every preset file. -/
def mapping_keys (w : World) : World × Option String :=
  runStep mapping_keys_file w

/-- _add_target(): annotate every bare-symbol mapping value of every preset
file with its resolved target. -/
def add_target (env : Env) (w : World) : World × Option String :=
  runStep (add_target_file env) w

/-- _update_version(): return silently when config.json does not exist,
otherwise json.load it (an undecodable or non-dict document raises), set the
version field to the application VERSION string and rewrite the file with
json.dump(indent=4) and no trailing newline. -/
def update_version (env : Env) (w : World) : World × Option String :=
  match w.root with
  | none => (w, none)
  | some r =>
    match r.configJson with
    | none => (w, none)
    | some d =>
      match parseFile d with
      | none => (w, some "JSONDecodeError")
      | some (JVal.obj config) =>
        let d' := Dump.pretty (JVal.obj (pySet config "version" (JVal.str env.appVersion)))
        ({ w with root := some { r with configJson := some d' } }, none)
      | some _ => (w, some "TypeError")

/-- migrate(): read the stored version once, run each version-gated step in
order, then stamp the config with the application version.  An uncaught
exception from a step aborts the run there (later steps do not execute); the
global_uinputs.prepare() call before _add_target initializes the external
registry and has no effect on the configuration tree. -/
def migrate (env : Env) (w : World) : World × Option String :=
  match config_version w with
  | .error e => (w, some e)
  | .ok v =>
    let w1 := if verLt v (parseVer "0.4.0") then preset_path (config_suffix w) else w
    let r2 := if verLt v (parseVer "1.2.2") then mapping_keys w1 else (w1, none)
    match r2.2 with
    | some e => (r2.1, some e)
    | none =>
      let w3 := if verLt v (parseVer "1.3.0") then rename_config r2.1 else r2.1
      let r4 := if verLt v (parseVer "1.4.0") then add_target env w3 else (w3, none)
      match r4.2 with
      | some e => (r4.1, some e)
      | none =>
        if verLt v (parseVer env.appVersion) then update_version env r4.1
        else (r4.1, none)

/-- Totalized per-file step: the rewritten content when the step succeeds,
the original content otherwise. -/
def stepTotal (step : Dump → Except String Dump) (d : Dump) : Dump :=
  match step d with
  | .ok d' => d'
  | .error _ => d

/-- Modelled from the spec (section 4.3/4.5, per-file independence): apply a
per-file transform to every preset file of every group independently.  Used
to compare the sequential runner against independent per-file processing. -/
def mapWorldFiles (step : Dump → Except String Dump) (w : World) : World :=
  match w.root with
  | none => w
  | some r =>
    match r.presets with
    | none => w
    | some gs =>
      let gs' := gs.map (fun g =>
        { g with files := g.files.map (fun f => (f.1, stepTotal step f.2)) })
      { w with root := some { r with presets := some gs' } }

/-- Whether the per-file step raises no uncaught exception on any preset
file of the world. -/
def filesOk (step : Dump → Except String Dump) (w : World) : Bool :=
  match w.root with
  | none => true
  | some r =>
    match r.presets with
    | none => true
    | some gs =>
      gs.all (fun g => g.files.all (fun f =>
        match step f.2 with
        | .ok _ => true
        | .error _ => false))

/-! ### Concrete fixtures used by the closed witness and counterexample
theorems below -/

/-- An environment whose collaborators are never consulted. -/
def envNull : Env := ⟨"1.4.0", [], fun _ => .error "unused"⟩

/-- A fully migrated configuration tree stamped with version 1.4.0. -/
def w0 : World :=
  ⟨some ⟨some (.pretty (JVal.obj [("version", JVal.str "1.4.0")])), none, some [], []⟩, none⟩

/-- Registry with one keyboard; the symbol "good" resolves to key code 30,
every other symbol makes the macro parser fail. -/
def env5 : Env :=
  ⟨"1.4.0", [("keyboard", ⟨[30, 31], []⟩)],
    fun s => if s = "good" then .ok ⟨[30], []⟩ else .error "MacroParsingError"⟩

/-- Preset file whose first mapping entry has an unresolvable symbol and
whose second entry is fine. -/
def dA : Dump :=
  .prettyNL (JVal.obj [("mapping",
    JVal.obj [("1,5,1", JVal.str "bad"), ("2,6,1", JVal.str "good")])])

/-- Preset file with a single well-behaved mapping entry. -/
def dB : Dump :=
  .prettyNL (JVal.obj [("mapping", JVal.obj [("3,7,1", JVal.str "good")])])

def g5 : GroupDir := ⟨"grp", [("a.json", dA), ("b.json", dB)]⟩

def r5 : ConfigRoot :=
  ⟨some (.prettyNL (JVal.obj [("version", JVal.str "1.3.0")])), none, some [g5], []⟩

/-- Configuration tree at version 1.3.0 whose first preset file contains a
failing entry followed by a good entry, and whose second preset file is
entirely good. -/
def w5 : World := ⟨some r5, none⟩

/-- A preset file whose bytes do not decode as JSON. -/
def dCorrupt : Dump := .foreign "corrupt" none

def g6 : GroupDir := ⟨"grp", [("bad.json", dCorrupt), ("ok.json", dB)]⟩

/-- Configuration tree with one corrupt preset file and one good one. -/
def w6 : World := ⟨some ⟨none, none, some [g6], []⟩, none⟩

/-- An environment resolving every symbol to key code 30. -/
def env6 : Env := ⟨"1.4.0", [("keyboard", ⟨[30, 31], []⟩)], fun _ => .ok ⟨[30], []⟩⟩

/-- A config.json whose bytes do not decode as JSON. -/
def wBad : World := ⟨some ⟨some (.foreign "not json" none), none, none, []⟩, none⟩

/-- A config.json without a version field. -/
def wA : World :=
  ⟨some ⟨some (.prettyNL (JVal.obj [("autoload", JVal.bool true)])), none, none, []⟩, none⟩

/-- A config.json carrying version 1.2.2. -/
def wB : World :=
  ⟨some ⟨some (.pretty (JVal.obj [("version", JVal.str "1.2.2")])), none, none, []⟩, none⟩

/-- A config.json with a version field and one other setting. -/
def w7 : World :=
  ⟨some ⟨some (.prettyNL (JVal.obj
    [("version", JVal.str "1.0.0"), ("autoload", JVal.bool true)])), none, none, []⟩, none⟩

/-- A legacy layout: no presets/ subdirectory, one top-level group dir. -/
def wQ : World := ⟨some ⟨none, none, none, [g6]⟩, none⟩

/-- Registry (keyboard then mouse); every symbol needs relative motion. -/
def envM : Env :=
  ⟨"1.4.0", [("keyboard", ⟨[30, 31], []⟩), ("mouse", ⟨[4], [8]⟩)], fun _ => .ok ⟨[], [8]⟩⟩

/-- Registry with one keyboard; every symbol needs key code 30 only. -/
def envK : Env := ⟨"1.4.0", [("keyboard", ⟨[30, 31], []⟩)], fun _ => .ok ⟨[30], []⟩⟩

/-- Registry with one keyboard; every symbol needs key code 99, which the
keyboard lacks. -/
def envN : Env := ⟨"1.4.0", [("keyboard", ⟨[30, 31], []⟩)], fun _ => .ok ⟨[99], []⟩⟩

/-! ### Association-list (Python dict) lemmas -/

theorem keysOf_nil : keysOf [] = [] := rfl

theorem keysOf_cons (p : String × JVal) (rest : List (String × JVal)) :
    keysOf (p :: rest) = p.1 :: keysOf rest := rfl

theorem dictGet_pySet_self (d : List (String × JVal)) (k : String) (v : JVal) :
    dictGet (pySet d k v) k = some v := by
  induction d with
  | nil => simp [pySet, dictGet]
  | cons p rest ih =>
    obtain ⟨a, b⟩ := p
    by_cases hp : a = k
    · simp [pySet, dictGet, hp]
    · simp [pySet, dictGet, hp, ih]

theorem dictGet_pySet_ne (d : List (String × JVal)) (k k' : String) (v : JVal)
    (h : k' ≠ k) : dictGet (pySet d k v) k' = dictGet d k' := by
  induction d with
  | nil => simp [pySet, dictGet, Ne.symm h]
  | cons p rest ih =>
    obtain ⟨a, b⟩ := p
    by_cases hp : a = k
    · simp [pySet, dictGet, hp, Ne.symm h]
    · simp [pySet, dictGet, hp, ih]

theorem dictGet_pyRemove_ne (d : List (String × JVal)) (k k' : String)
    (h : k' ≠ k) : dictGet (pyRemove d k) k' = dictGet d k' := by
  induction d with
  | nil => simp [pyRemove]
  | cons p rest ih =>
    obtain ⟨a, b⟩ := p
    by_cases hp : a = k
    · simp [pyRemove, dictGet, hp, Ne.symm h]
    · simp [pyRemove, dictGet, hp, ih]

theorem mem_keysOf_of_dictGet (d : List (String × JVal)) (k : String) (v : JVal)
    (h : dictGet d k = some v) : k ∈ keysOf d := by
  induction d with
  | nil => simp [dictGet] at h
  | cons p rest ih =>
    obtain ⟨a, b⟩ := p
    rw [keysOf_cons]
    by_cases hp : a = k
    · rw [hp]; exact List.mem_cons_self k _
    · simp only [dictGet, if_neg hp] at h
      exact List.mem_cons_of_mem _ (ih h)

theorem dictGet_eq_none_of_not_mem (d : List (String × JVal)) (k : String)
    (h : k ∉ keysOf d) : dictGet d k = none := by
  induction d with
  | nil => rfl
  | cons p rest ih =>
    obtain ⟨a, b⟩ := p
    rw [keysOf_cons] at h
    have ha : ¬a = k := fun e => h (by rw [e]; exact List.mem_cons_self k _)
    have h2 : k ∉ keysOf rest := fun m => h (List.mem_cons_of_mem _ m)
    simp [dictGet, ha, ih h2]

theorem not_mem_of_dictGet_eq_none (d : List (String × JVal)) (k : String)
    (h : dictGet d k = none) : k ∉ keysOf d := by
  induction d with
  | nil => simp [keysOf_nil]
  | cons p rest ih =>
    obtain ⟨a, b⟩ := p
    by_cases hp : a = k
    · simp [dictGet, hp] at h
    · simp only [dictGet, if_neg hp] at h
      rw [keysOf_cons]
      intro hm
      rcases List.mem_cons.mp hm with e | m
      · exact hp e.symm
      · exact ih h m

theorem dictGet_pyRemove_self (d : List (String × JVal)) (k : String)
    (h : (keysOf d).Nodup) : dictGet (pyRemove d k) k = none := by
  induction d with
  | nil => rfl
  | cons p rest ih =>
    obtain ⟨a, b⟩ := p
    rw [keysOf_cons] at h
    obtain ⟨h1, h2⟩ := List.nodup_cons.mp h
    by_cases hp : a = k
    · simp only [pyRemove, if_pos hp]
      exact dictGet_eq_none_of_not_mem rest k (hp ▸ h1)
    · simp [pyRemove, dictGet, hp, ih h2]

theorem mem_keysOf_pySet (d : List (String × JVal)) (k k' : String) (v : JVal)
    (h : k' ∈ keysOf d) : k' ∈ keysOf (pySet d k v) := by
  induction d with
  | nil => simp [keysOf_nil] at h
  | cons p rest ih =>
    obtain ⟨a, b⟩ := p
    by_cases hp : a = k
    · subst hp
      simpa [pySet, keysOf_cons] using (by simpa [keysOf_cons] using h)
    · rw [keysOf_cons] at h
      simp only [pySet, if_neg hp, keysOf_cons]
      rcases List.mem_cons.mp h with e | m
      · exact e ▸ List.mem_cons_self _ _
      · exact List.mem_cons_of_mem _ (ih m)

theorem mem_keysOf_pySet_elim (d : List (String × JVal)) (k k' : String) (v : JVal)
    (h : k' ∈ keysOf (pySet d k v)) : k' ∈ keysOf d ∨ k' = k := by
  induction d with
  | nil =>
    right
    simpa [pySet, keysOf_cons, keysOf_nil] using h
  | cons p rest ih =>
    obtain ⟨a, b⟩ := p
    by_cases hp : a = k
    · left
      simpa [pySet, hp, keysOf_cons] using h
    · simp only [pySet, if_neg hp, keysOf_cons] at h
      rcases List.mem_cons.mp h with e | m
      · left; rw [keysOf_cons]; exact e ▸ List.mem_cons_self _ _
      · rcases ih m with m' | e'
        · left; rw [keysOf_cons]; exact List.mem_cons_of_mem _ m'
        · right; exact e'

theorem keysOf_pyRemove_subset (d : List (String × JVal)) (k k' : String)
    (h : k' ∈ keysOf (pyRemove d k)) : k' ∈ keysOf d := by
  induction d with
  | nil => simp [pyRemove, keysOf_nil] at h
  | cons p rest ih =>
    obtain ⟨a, b⟩ := p
    rw [keysOf_cons]
    by_cases hp : a = k
    · simp only [pyRemove, if_pos hp] at h
      exact List.mem_cons_of_mem _ h
    · simp only [pyRemove, if_neg hp, keysOf_cons] at h
      rcases List.mem_cons.mp h with e | m
      · exact e ▸ List.mem_cons_self _ _
      · exact List.mem_cons_of_mem _ (ih m)

theorem not_mem_keysOf_pyRemove (d : List (String × JVal)) (k : String)
    (h : (keysOf d).Nodup) : k ∉ keysOf (pyRemove d k) := by
  induction d with
  | nil => simp [pyRemove, keysOf_nil]
  | cons p rest ih =>
    obtain ⟨a, b⟩ := p
    rw [keysOf_cons] at h
    obtain ⟨h1, h2⟩ := List.nodup_cons.mp h
    by_cases hp : a = k
    · simp only [pyRemove, if_pos hp]
      exact hp ▸ h1
    · simp only [pyRemove, if_neg hp, keysOf_cons]
      intro hm
      rcases List.mem_cons.mp hm with e | m
      · exact hp e.symm
      · exact ih h2 m

theorem mem_keysOf_pyRemove_of_ne (d : List (String × JVal)) (k k' : String)
    (hne : k' ≠ k) (h : k' ∈ keysOf d) : k' ∈ keysOf (pyRemove d k) := by
  induction d with
  | nil => simp [keysOf_nil] at h
  | cons p rest ih =>
    obtain ⟨a, b⟩ := p
    rw [keysOf_cons] at h
    by_cases hp : a = k
    · simp only [pyRemove, if_pos hp]
      rcases List.mem_cons.mp h with e | m
      · exact absurd (e.trans hp) hne
      · exact m
    · simp only [pyRemove, if_neg hp, keysOf_cons]
      rcases List.mem_cons.mp h with e | m
      · exact e ▸ List.mem_cons_self _ _
      · exact List.mem_cons_of_mem _ (ih m)

theorem nodup_pyRemove (d : List (String × JVal)) (k : String)
    (h : (keysOf d).Nodup) : (keysOf (pyRemove d k)).Nodup := by
  induction d with
  | nil => simp [pyRemove, keysOf_nil]
  | cons p rest ih =>
    obtain ⟨a, b⟩ := p
    rw [keysOf_cons] at h
    obtain ⟨h1, h2⟩ := List.nodup_cons.mp h
    by_cases hp : a = k
    · simp only [pyRemove, if_pos hp]
      exact h2
    · simp only [pyRemove, if_neg hp, keysOf_cons]
      exact List.nodup_cons.mpr
        ⟨fun hm => h1 (keysOf_pyRemove_subset rest k a hm), ih h2⟩

theorem nodup_pySet (d : List (String × JVal)) (k : String) (v : JVal)
    (h : (keysOf d).Nodup) : (keysOf (pySet d k v)).Nodup := by
  induction d with
  | nil => simp [pySet, keysOf_cons, keysOf_nil]
  | cons p rest ih =>
    obtain ⟨a, b⟩ := p
    rw [keysOf_cons] at h
    obtain ⟨h1, h2⟩ := List.nodup_cons.mp h
    by_cases hp : a = k
    · simp only [pySet, if_pos hp, keysOf_cons]
      exact List.nodup_cons.mpr ⟨h1, h2⟩
    · simp only [pySet, if_neg hp, keysOf_cons]
      refine List.nodup_cons.mpr ⟨fun hm => ?_, ih h2⟩
      rcases mem_keysOf_pySet_elim rest k a v hm with m | e
      · exact h1 m
      · exact hp e

/-! ### Comma-count and key-shape lemmas -/

theorem commaCount_append1 (k : String) : commaCount (k ++ ",1") = commaCount k + 1 := by
  show ((k ++ ",1").data.count ',') = k.data.count ',' + 1
  rw [String.data_append]
  rw [List.count_append]
  rfl

theorem append1_inj (k1 k2 : String) (h : k1 ++ ",1" = k2 ++ ",1") : k1 = k2 := by
  have hd : k1.data ++ (",1" : String).data = k2.data ++ (",1" : String).data := by
    have hc := congrArg String.data h
    rwa [String.data_append, String.data_append] at hc
  have he : k1.data = k2.data := List.append_cancel_right hd
  cases k1; cases k2; simp_all

theorem append1_ne_of_counts (k j : String) (h : commaCount (k ++ ",1") ≠ commaCount j) :
    k ++ ",1" ≠ j := fun e => h (e ▸ rfl)

/-! ### keyStep fold lemmas (the _mapping_keys key loop) -/

theorem keyStep_of_count_ne (d : List (String × JVal)) (k : String)
    (h : commaCount k ≠ 1) : keyStep d k = d := by
  simp [keyStep, h]

theorem nodup_keyStep (d : List (String × JVal)) (k : String)
    (h : (keysOf d).Nodup) : (keysOf (keyStep d k)).Nodup := by
  unfold keyStep
  by_cases hc : commaCount k = 1
  · rw [if_pos hc]
    cases hg : dictGet d k with
    | none => exact h
    | some v => exact nodup_pySet _ _ _ (nodup_pyRemove _ _ h)
  · rw [if_neg hc]; exact h

theorem nodup_foldl_keyStep (ks : List String) (d : List (String × JVal))
    (h : (keysOf d).Nodup) : (keysOf (ks.foldl keyStep d)).Nodup := by
  induction ks generalizing d with
  | nil => exact h
  | cons k ks ih =>
    rw [List.foldl_cons]
    exact ih _ (nodup_keyStep d k h)

theorem dictGet_keyStep_ne (d : List (String × JVal)) (k j : String)
    (h : commaCount k = 1 → j ≠ k ∧ k ++ ",1" ≠ j) :
    dictGet (keyStep d k) j = dictGet d j := by
  unfold keyStep
  by_cases hc : commaCount k = 1
  · rw [if_pos hc]
    obtain ⟨h1, h2⟩ := h hc
    cases hg : dictGet d k with
    | none => rfl
    | some v =>
      rw [dictGet_pySet_ne _ _ _ _ (fun e => h2 e.symm)]
      exact dictGet_pyRemove_ne _ _ _ h1
  · rw [if_neg hc]

theorem dictGet_foldl_keyStep (ks : List String) (d : List (String × JVal)) (j : String)
    (h : ∀ k ∈ ks, commaCount k = 1 → j ≠ k ∧ k ++ ",1" ≠ j) :
    dictGet (ks.foldl keyStep d) j = dictGet d j := by
  induction ks generalizing d with
  | nil => rfl
  | cons k ks ih =>
    rw [List.foldl_cons]
    rw [ih _ (fun k' hk' => h k' (List.mem_cons_of_mem _ hk'))]
    exact dictGet_keyStep_ne d k j (h k (List.mem_cons_self _ _))

theorem dictGet_keyStep_self (d : List (String × JVal)) (k : String) (v : JVal)
    (hc : commaCount k = 1) (hv : dictGet d k = some v) (hnd : (keysOf d).Nodup) :
    dictGet (keyStep d k) (k ++ ",1") = some v ∧ dictGet (keyStep d k) k = none := by
  unfold keyStep
  rw [if_pos hc, hv]
  have hkne : k ≠ k ++ ",1" := by
    intro e
    have hca := commaCount_append1 k
    rw [← e] at hca
    omega
  constructor
  · exact dictGet_pySet_self _ _ _
  · rw [dictGet_pySet_ne _ _ _ _ hkne]
    exact dictGet_pyRemove_self _ _ hnd

theorem mem_keysOf_keyStep (d : List (String × JVal)) (k j : String)
    (hj : commaCount j ≠ 1) (hm : j ∈ keysOf d) : j ∈ keysOf (keyStep d k) := by
  unfold keyStep
  by_cases hc : commaCount k = 1
  · rw [if_pos hc]
    cases hg : dictGet d k with
    | none => exact hm
    | some v =>
      exact mem_keysOf_pySet _ _ _ _
        (mem_keysOf_pyRemove_of_ne _ _ _ (fun e => hj (e ▸ hc)) hm)
  · rw [if_neg hc]; exact hm

theorem mem_keysOf_foldl_keyStep (ks : List String) (d : List (String × JVal)) (j : String)
    (hj : commaCount j ≠ 1) (hm : j ∈ keysOf d) : j ∈ keysOf (ks.foldl keyStep d) := by
  induction ks generalizing d with
  | nil => exact hm
  | cons k ks ih =>
    rw [List.foldl_cons]
    exact ih _ (mem_keysOf_keyStep d k j hj hm)

theorem foldl_keyStep_no_single (ks : List String) (d : List (String × JVal))
    (hnd : (keysOf d).Nodup)
    (hinv : ∀ j ∈ keysOf d, commaCount j = 1 → j ∈ ks) :
    ∀ j ∈ keysOf (ks.foldl keyStep d), commaCount j ≠ 1 := by
  induction ks generalizing d with
  | nil =>
    intro j hj hc
    exact absurd (hinv j hj hc) (List.not_mem_nil j)
  | cons k ks ih =>
    rw [List.foldl_cons]
    apply ih (keyStep d k) (nodup_keyStep d k hnd)
    intro j hj hc
    unfold keyStep at hj
    by_cases hck : commaCount k = 1
    · rw [if_pos hck] at hj
      cases hg : dictGet d k with
      | none =>
        rw [hg] at hj
        rcases List.mem_cons.mp (hinv j hj hc) with e | m
        · exact absurd (e ▸ hj) (not_mem_of_dictGet_eq_none d k hg)
        · exact m
      | some v =>
        rw [hg] at hj
        rcases mem_keysOf_pySet_elim _ _ _ _ hj with m | e
        · have hjd := keysOf_pyRemove_subset d k j m
          rcases List.mem_cons.mp (hinv j hjd hc) with e' | m'
          · exact absurd (e' ▸ m) (not_mem_keysOf_pyRemove d k hnd)
          · exact m'
        · rw [e, commaCount_append1, hck] at hc
          omega
    · rw [if_neg hck] at hj
      rcases List.mem_cons.mp (hinv j hj hc) with e | m
      · exact absurd (e ▸ hc) hck
      · exact m

theorem foldl_keyStep_id (ks : List String) (d : List (String × JVal))
    (h : ∀ k ∈ ks, commaCount k ≠ 1) : ks.foldl keyStep d = d := by
  induction ks with
  | nil => rfl
  | cons k ks ih =>
    rw [List.foldl_cons, keyStep_of_count_ne d k (h k (List.mem_cons_self _ _))]
    exact ih (fun k' hk' => h k' (List.mem_cons_of_mem _ hk'))

/-! ### migrateKeys: the per-mapping transform of _mapping_keys -/

theorem dictGet_migrateKeys_of_one (m : List (String × JVal)) (k : String) (v : JVal)
    (hnd : (keysOf m).Nodup) (hc : commaCount k = 1) (hv : dictGet m k = some v) :
    dictGet (migrateKeys m) (k ++ ",1") = some v ∧ dictGet (migrateKeys m) k = none := by
  have hmem : k ∈ keysOf m := mem_keysOf_of_dictGet m k v hv
  obtain ⟨s, t, hst⟩ := List.append_of_mem hmem
  have hnd' := hnd
  rw [hst, List.nodup_append] at hnd'
  obtain ⟨hs, hkt, hdisj⟩ := hnd'
  have hknotins : k ∉ s := fun hk => hdisj hk (List.mem_cons_self _ _)
  have hknotint : k ∉ t := (List.nodup_cons.mp hkt).1
  unfold migrateKeys
  rw [hst, List.foldl_append, List.foldl_cons]
  have hpreh : ∀ k' ∈ s, commaCount k' = 1 → k ≠ k' ∧ k' ++ ",1" ≠ k := by
    intro k' hk' hc1
    refine ⟨fun e => hknotins (e ▸ hk'), ?_⟩
    apply append1_ne_of_counts
    rw [commaCount_append1, hc1, hc]
    omega
  have hpre : dictGet (s.foldl keyStep m) k = some v := by
    rw [dictGet_foldl_keyStep s m k hpreh]
    exact hv
  have hndpre : (keysOf (s.foldl keyStep m)).Nodup := nodup_foldl_keyStep s m hnd
  obtain ⟨hA, hB⟩ := dictGet_keyStep_self (s.foldl keyStep m) k v hc hpre hndpre
  constructor
  · rw [dictGet_foldl_keyStep t _ (k ++ ",1") ?hnew]
    · exact hA
    case hnew =>
      intro k' hk' hc1
      constructor
      · intro e
        have hca := commaCount_append1 k
        rw [e, hc1] at hca
        omega
      · intro e
        exact hknotint (append1_inj k' k e ▸ hk')
  · rw [dictGet_foldl_keyStep t _ k ?hold]
    · exact hB
    case hold =>
      intro k' hk' hc1
      refine ⟨fun e => hknotint (e ▸ hk'), ?_⟩
      apply append1_ne_of_counts
      rw [commaCount_append1, hc1, hc]
      omega

theorem mem_keysOf_migrateKeys (m : List (String × JVal)) (k : String)
    (hc : commaCount k ≠ 1) (hm : k ∈ keysOf m) : k ∈ keysOf (migrateKeys m) :=
  mem_keysOf_foldl_keyStep (keysOf m) m k hc hm

theorem dictGet_migrateKeys_of_no_counterpart (m : List (String × JVal)) (k : String)
    (hc : commaCount k ≠ 1)
    (hno : ∀ k', commaCount k' = 1 → k' ++ ",1" = k → k' ∉ keysOf m) :
    dictGet (migrateKeys m) k = dictGet m k := by
  unfold migrateKeys
  apply dictGet_foldl_keyStep
  intro k' hk' hc1
  exact ⟨fun e => hc (e ▸ hc1), fun e => hno k' hc1 e hk'⟩

theorem migrateKeys_idem (m : List (String × JVal)) (hnd : (keysOf m).Nodup) :
    migrateKeys (migrateKeys m) = migrateKeys m := by
  have hns : ∀ j ∈ keysOf (migrateKeys m), commaCount j ≠ 1 :=
    foldl_keyStep_no_single (keysOf m) m hnd (fun j hj _ => hj)
  show (keysOf (migrateKeys m)).foldl keyStep (migrateKeys m) = migrateKeys m
  exact foldl_keyStep_id _ _ hns

/-! ### Preset-runner lemmas (_mapping_keys / _add_target iteration) -/

theorem runFiles_ok (step : Dump → Except String Dump) (fs : List (String × Dump))
    (h : ∀ f ∈ fs, ∃ d', step f.2 = .ok d') :
    runFiles step fs = (fs.map (fun f => (f.1, stepTotal step f.2)), none) := by
  induction fs with
  | nil => rfl
  | cons f rest ih =>
    obtain ⟨n, d⟩ := f
    obtain ⟨d', hd⟩ := h (n, d) (List.mem_cons_self _ _)
    simp only [runFiles, hd, List.map_cons]
    rw [ih (fun f hf => h f (List.mem_cons_of_mem _ hf))]
    simp [stepTotal, hd]

theorem runFiles_err (step : Dump → Except String Dump) (s : List (String × Dump))
    (n : String) (d : Dump) (t : List (String × Dump)) (e : String)
    (hs : ∀ f ∈ s, ∃ d', step f.2 = .ok d') (hd : step d = .error e) :
    runFiles step (s ++ (n, d) :: t) =
      (s.map (fun f => (f.1, stepTotal step f.2)) ++ (n, d) :: t, some e) := by
  induction s with
  | nil => simp [runFiles, hd]
  | cons f rest ih =>
    obtain ⟨n', d''⟩ := f
    obtain ⟨d', hf⟩ := hs (n', d'') (List.mem_cons_self _ _)
    simp only [List.cons_append, runFiles, hf, List.map_cons, List.append_eq]
    rw [ih (fun f hf' => hs f (List.mem_cons_of_mem _ hf'))]
    simp [stepTotal, hf]

theorem runGroups_ok (step : Dump → Except String Dump) (gs : List GroupDir)
    (h : ∀ g ∈ gs, ∀ f ∈ g.files, ∃ d', step f.2 = .ok d') :
    runGroups step gs =
      (gs.map (fun g =>
        { g with files := g.files.map (fun f => (f.1, stepTotal step f.2)) }), none) := by
  induction gs with
  | nil => rfl
  | cons g rest ih =>
    have hg := runFiles_ok step g.files (h g (List.mem_cons_self _ _))
    simp only [runGroups, hg, List.map_cons]
    rw [ih (fun g' hg' => h g' (List.mem_cons_of_mem _ hg'))]

theorem runGroups_err_first (step : Dump → Except String Dump) (g : GroupDir)
    (rest : List GroupDir) (fs' : List (String × Dump)) (e : String)
    (hfiles : runFiles step g.files = (fs', some e)) :
    runGroups step (g :: rest) = ({ g with files := fs' } :: rest, some e) := by
  simp [runGroups, hfiles]

theorem runStep_ok (step : Dump → Except String Dump) (w : World)
    (h : filesOk step w = true) : runStep step w = (mapWorldFiles step w, none) := by
  obtain ⟨root, legacy⟩ := w
  cases root with
  | none => rfl
  | some r =>
    obtain ⟨cj, cp, ps, grs⟩ := r
    cases ps with
    | none => rfl
    | some gs =>
      simp only [filesOk] at h
      have hall : ∀ g ∈ gs, ∀ f ∈ g.files, ∃ d', step f.2 = .ok d' := by
        rw [List.all_eq_true] at h
        intro g hg f hf
        have hga := h g hg
        rw [List.all_eq_true] at hga
        have hb := hga f hf
        cases hs : step f.2 with
        | ok d' => exact ⟨d', rfl⟩
        | error e => rw [hs] at hb; simp at hb
      simp only [runStep, mapWorldFiles]
      rw [runGroups_ok step gs hall]

/-! ### Version-gate lemmas -/

theorem verLt_gate_040 (v : Ver) (h : verLt v (parseVer "1.4.0") = false) :
    verLt v (parseVer "0.4.0") = false := by
  have h14 : parseVer "1.4.0" = ⟨1, 4, 0⟩ := rfl
  have h04 : parseVer "0.4.0" = ⟨0, 4, 0⟩ := rfl
  rw [h14] at h
  rw [h04]
  obtain ⟨a, b, c⟩ := v
  simp [verLt] at h ⊢
  omega

theorem verLt_gate_122 (v : Ver) (h : verLt v (parseVer "1.4.0") = false) :
    verLt v (parseVer "1.2.2") = false := by
  have h14 : parseVer "1.4.0" = ⟨1, 4, 0⟩ := rfl
  have h12 : parseVer "1.2.2" = ⟨1, 2, 2⟩ := rfl
  rw [h14] at h
  rw [h12]
  obtain ⟨a, b, c⟩ := v
  simp [verLt] at h ⊢
  omega

theorem verLt_gate_130 (v : Ver) (h : verLt v (parseVer "1.4.0") = false) :
    verLt v (parseVer "1.3.0") = false := by
  have h14 : parseVer "1.4.0" = ⟨1, 4, 0⟩ := rfl
  have h13 : parseVer "1.3.0" = ⟨1, 3, 0⟩ := rfl
  rw [h14] at h
  rw [h13]
  obtain ⟨a, b, c⟩ := v
  simp [verLt] at h ⊢
  omega

/-! ### Device-resolution lemmas (_find_target device loop) -/

theorem firstDevice_app (keys : List Nat) (s : List (String × Caps)) (nm : String)
    (c : Caps) (t : List (String × Caps))
    (hs : ∀ p ∈ s, subsetB keys p.2.keys = false) (hc : subsetB keys c.keys = true) :
    firstDevice keys (s ++ (nm, c) :: t) = some nm := by
  induction s with
  | nil => simp [firstDevice, hc]
  | cons p rest ih =>
    obtain ⟨n', c'⟩ := p
    have hp := hs (n', c') (List.mem_cons_self _ _)
    simp only at hp
    simp [firstDevice, hp, ih (fun q hq => hs q (List.mem_cons_of_mem _ hq))]

theorem firstDevice_none (keys : List Nat) (l : List (String × Caps))
    (h : ∀ p ∈ l, subsetB keys p.2.keys = false) : firstDevice keys l = none := by
  induction l with
  | nil => rfl
  | cons p rest ih =>
    obtain ⟨n', c'⟩ := p
    have hp := h (n', c') (List.mem_cons_self _ _)
    simp only at hp
    simp [firstDevice, hp, ih (fun q hq => h q (List.mem_cons_of_mem _ hq))]

/-! ### Claim theorems -/

/-- C1: target resolution (_find_target, applied by _add_target) follows the
exact priority: a required capability set with any relative-motion (EV_REL)
code resolves to mouse regardless of key capabilities; otherwise the first
registered output device, in registration order, whose EV_KEY capability set
contains all required key codes; if no device qualifies, _add_target uses
keyboard as the target, appends the broken-mapping annotation to the stored
symbol, and keeps the mapping entry rather than dropping it. -/
theorem spec_C1 (env : Env) (s : String) (caps : Caps)
    (hres : env.resolveCaps s = .ok caps) :
    (caps.rels ≠ [] → find_target env s = .ok (some "mouse"))
  ∧ (∀ front nm c back, caps.rels = [] → env.devices = front ++ (nm, c) :: back →
      (∀ p ∈ front, subsetB caps.keys p.2.keys = false) →
      subsetB caps.keys c.keys = true → find_target env s = .ok (some nm))
  ∧ (caps.rels = [] → (∀ p ∈ env.devices, subsetB caps.keys p.2.keys = false) →
      find_target env s = .ok none
      ∧ add_target_entry env (JVal.str s) =
          .ok (some (JVal.list [JVal.str (s ++ brokenNote), JVal.str "keyboard"]))
      ∧ ∀ preset m k, dictGet preset "mapping" = some (JVal.obj m) →
          m = [(k, JVal.str s)] →
          add_target_file env (Dump.prettyNL (JVal.obj preset)) =
            .ok (Dump.prettyNL (JVal.obj (pySet preset "mapping" (JVal.obj [(k, JVal.list [JVal.str (s ++ brokenNote), JVal.str "keyboard"])]))))) := by
  refine ⟨?_, ?_, ?_⟩
  · intro hrel
    have hlen : 0 < caps.rels.length := List.length_pos.mpr hrel
    simp [find_target, hres, hlen]
  · intro front nm c back hrel hdev hfront hc
    simp [find_target, hres, hrel, hdev,
      firstDevice_app caps.keys front nm c back hfront hc]
  · intro hrel hnone
    have hft : find_target env s = .ok none := by
      simp [find_target, hres, hrel, firstDevice_none caps.keys env.devices hnone]
    have hentry : add_target_entry env (JVal.str s) =
        .ok (some (JVal.list [JVal.str (s ++ brokenNote), JVal.str "keyboard"])) := by
      simp [add_target_entry, hft]
    refine ⟨hft, hentry, ?_⟩
    intro preset m k hmap hm
    subst hm
    simp [add_target_file, parseFile, hmap, add_target_mapping, add_target_loop,
      hentry, pySet]

/-- C1 witness: with a registry (keyboard then mouse), a symbol needing a
relative axis resolves to mouse; a symbol needing only key 30 resolves to
the keyboard whose capabilities are a superset; a symbol needing key 99
finds no device and resolves to the keyboard fallback with annotation. -/
theorem spec_C1_witness :
    find_target envM "wheel" = .ok (some "mouse")
  ∧ find_target envK "a" = .ok (some "keyboard")
  ∧ (find_target envN "zz" = .ok none
     ∧ add_target_entry envN (JVal.str "zz") =
         .ok (some (JVal.list [JVal.str ("zz" ++ brokenNote), JVal.str "keyboard"]))) := by
  refine ⟨?_, ?_, ?_⟩
  · exact (spec_C1 envM "wheel" ⟨[], [8]⟩ rfl).1 (by decide)
  · exact (spec_C1 envK "a" ⟨[30], []⟩ rfl).2.1 [] "keyboard" ⟨[30, 31], []⟩ []
      rfl rfl (by simp) (by decide)
  · have h := (spec_C1 envN "zz" ⟨[99], []⟩ rfl).2.2 rfl (by decide)
    exact ⟨h.1, h.2.1⟩

/-- C2: once the version stamp written by a first migrate run makes every
version gate false, a second migrate invocation on the resulting tree
changes no file and no directory and raises nothing. -/
theorem spec_C2 (env : Env) (w : World) (v : Ver)
    (h1 : config_version (migrate env w).1 = .ok v)
    (h2 : verLt v (parseVer "1.4.0") = false)
    (h3 : verLt v (parseVer env.appVersion) = false) :
    migrate env (migrate env w).1 = ((migrate env w).1, none) := by
  have h040 := verLt_gate_040 v h2
  have h122 := verLt_gate_122 v h2
  have h130 := verLt_gate_130 v h2
  rcases hmig : migrate env w with ⟨w1, e1⟩
  rw [hmig] at h1
  simp only at h1 ⊢
  simp [migrate, h1, h040, h122, h130, h2, h3]

/-- C2 witness: a tree already stamped 1.4.0 is read back as version 1.4.0
after the first run and the second run is the identity. -/
theorem spec_C2_witness :
    migrate envNull (migrate envNull w0).1 = ((migrate envNull w0).1, none) :=
  spec_C2 envNull w0 ⟨1, 4, 0⟩ rfl rfl rfl

/-- C3 counterexample: the claim says every key already in 3-component form
is left unchanged, but when a mapping contains both "1,5" and "1,5,1" the
transform re-inserts the value of "1,5" under "1,5,1", so the pre-existing
entry at the 3-component key "1,5,1" changes from "b" to "a". -/
theorem spec_C3_counterexample :
    dictGet [("1,5", JVal.str "a"), ("1,5,1", JVal.str "b")] "1,5,1"
      = some (JVal.str "b")
    ∧ dictGet (migrateKeys [("1,5", JVal.str "a"), ("1,5,1", JVal.str "b")]) "1,5,1"
      = some (JVal.str "a") := ⟨rfl, rfl⟩

/-- C3 (amended): the per-mapping transform of _mapping_keys moves every key
with exactly one separator to the same key with ",1" appended keeping its
value and removing the old key; a key already in 3-component form stays
present, and keeps its value provided its 2-component counterpart is not
also in the mapping (otherwise the counterpart's value overwrites it); the
transform is idempotent. -/
theorem spec_C3_amended (m : List (String × JVal)) (hnd : (keysOf m).Nodup) :
    (∀ k v, commaCount k = 1 → dictGet m k = some v →
      dictGet (migrateKeys m) (k ++ ",1") = some v ∧ dictGet (migrateKeys m) k = none)
  ∧ (∀ k, commaCount k = 2 → k ∈ keysOf m → k ∈ keysOf (migrateKeys m))
  ∧ (∀ k, commaCount k = 2 →
      (∀ k', commaCount k' = 1 → k' ++ ",1" = k → k' ∉ keysOf m) →
      dictGet (migrateKeys m) k = dictGet m k)
  ∧ migrateKeys (migrateKeys m) = migrateKeys m := by
  refine ⟨?_, ?_, ?_, ?_⟩
  · intro k v hc hv
    exact dictGet_migrateKeys_of_one m k v hnd hc hv
  · intro k hc hm
    exact mem_keysOf_migrateKeys m k (by omega) hm
  · intro k hc hno
    exact dictGet_migrateKeys_of_no_counterpart m k (by omega) hno
  · exact migrateKeys_idem m hnd

/-- C3 witness: in the mapping with keys "1,5" and "4,4,1", the legacy key
moves to "1,5,1" with its value, the 3-component key keeps its value, and a
second application of the transform is the identity. -/
theorem spec_C3_amended_witness :
    dictGet (migrateKeys [("1,5", JVal.str "a"), ("4,4,1", JVal.str "c")]) "1,5,1"
      = some (JVal.str "a")
    ∧ dictGet (migrateKeys [("1,5", JVal.str "a"), ("4,4,1", JVal.str "c")]) "4,4,1"
      = some (JVal.str "c")
    ∧ migrateKeys (migrateKeys [("1,5", JVal.str "a"), ("4,4,1", JVal.str "c")])
      = migrateKeys [("1,5", JVal.str "a"), ("4,4,1", JVal.str "c")] := by
  have h := spec_C3_amended [("1,5", JVal.str "a"), ("4,4,1", JVal.str "c")] (by decide)
  refine ⟨(h.1 "1,5" (JVal.str "a") (by decide) rfl).1, ?_, h.2.2.2⟩
  · rw [h.2.2.1 "4,4,1" (by decide) ?noc]
    case noc =>
      intro k' hc1 he
      have : k' = "4,4" := append1_inj k' "4,4" he
      subst this
      decide
    · rfl

/-- C10: when a preset mapping contains both a 2-component key k and its
3-component counterpart k ++ ",1", the _mapping_keys transform stores the
value of k under k ++ ",1", overwriting the value previously stored there. -/
theorem spec_C10 (m : List (String × JVal)) (k : String) (a b : JVal)
    (hnd : (keysOf m).Nodup) (hc : commaCount k = 1)
    (ha : dictGet m k = some a) (_hb : dictGet m (k ++ ",1") = some b) :
    dictGet (migrateKeys m) (k ++ ",1") = some a :=
  (dictGet_migrateKeys_of_one m k a hnd hc ha).1

/-- C10 witness: with both "1,5" mapping to "a" and "1,5,1" mapping to "b",
the transform leaves "1,5,1" mapping to "a". -/
theorem spec_C10_witness :
    dictGet (migrateKeys [("1,5", JVal.str "a"), ("1,5,1", JVal.str "b")]) "1,5,1"
      = some (JVal.str "a") :=
  spec_C10 [("1,5", JVal.str "a"), ("1,5,1", JVal.str "b")] "1,5"
    (JVal.str "a") (JVal.str "b") (by decide) (by decide) rfl rfl

/-- C4 counterexample: config_version does not return a version for every
state of the config file: a config.json whose bytes fail to decode makes
json.load raise JSONDecodeError, which config_version does not catch. -/
theorem spec_C4_counterexample :
    config_version wBad = Except.error "JSONDecodeError"
    ∧ ¬ ∃ ver, config_version wBad = Except.ok ver := by
  refine ⟨rfl, ?_⟩
  rintro ⟨ver, hver⟩
  rw [show config_version wBad = Except.error "JSONDecodeError" from rfl] at hver
  exact Except.noConfusion hver

/-- C4 (amended): config_version returns 0.0.0 when the config file is
absent (no config root or no config.json) and when the file parses as an
object without a version field, and returns the parsed version of a string
version field; a file that fails to decode raises instead of returning a
version. -/
theorem spec_C4_amended (w : World) (r : ConfigRoot) (d : Dump)
    (fields : List (String × JVal)) (s : String) :
    (w.root = none → config_version w = .ok (parseVer "0.0.0"))
  ∧ (w.root = some r → r.configJson = none → config_version w = .ok (parseVer "0.0.0"))
  ∧ (w.root = some r → r.configJson = some d → parseFile d = some (JVal.obj fields) →
      dictGet fields "version" = none → config_version w = .ok (parseVer "0.0.0"))
  ∧ (w.root = some r → r.configJson = some d → parseFile d = some (JVal.obj fields) →
      dictGet fields "version" = some (JVal.str s) →
      config_version w = .ok (parseVer s)) := by
  refine ⟨?_, ?_, ?_, ?_⟩
  · intro h
    simp [config_version, h]
  · intro h1 h2
    simp [config_version, h1, h2]
  · intro h1 h2 h3 h4
    simp [config_version, h1, h2, h3, h4]
  · intro h1 h2 h3 h4
    simp [config_version, h1, h2, h3, h4]

/-- C4 witness: a config.json without a version field reads as 0.0.0, and
one with version 1.2.2 reads as 1.2.2. -/
theorem spec_C4_amended_witness :
    config_version wA = Except.ok (parseVer "0.0.0")
    ∧ config_version wB = Except.ok (parseVer "1.2.2") := by
  constructor
  · exact (spec_C4_amended wA
      ⟨some (.prettyNL (JVal.obj [("autoload", JVal.bool true)])), none, none, []⟩
      (.prettyNL (JVal.obj [("autoload", JVal.bool true)]))
      [("autoload", JVal.bool true)] "").2.2.1 rfl rfl rfl rfl
  · exact (spec_C4_amended wB
      ⟨some (.pretty (JVal.obj [("version", JVal.str "1.2.2")])), none, none, []⟩
      (.pretty (JVal.obj [("version", JVal.str "1.2.2")]))
      [("version", JVal.str "1.2.2")] "1.2.2").2.2.2 rfl rfl rfl rfl

/-- C5 counterexample: the claim says a per-entry resolution failure is
caught, the entry skipped, and the other entries and presets still
processed; but on a tree at version 1.3.0 whose first preset holds a
failing entry followed by a good one, and whose second preset is entirely
good, migrate aborts with the error and rewrites nothing at all. -/
theorem spec_C5_counterexample :
    migrate env5 w5 = (w5, some "MacroParsingError") := rfl

/-- C5 (amended): a failure to resolve one mapping entry's symbol
propagates out of _add_target uncaught: the preset file containing it is
left unrewritten, the preset files after it are left unprocessed (files
before it stay rewritten), and the step returns the failure, aborting the
migration run; only whole-file JSON decode failures are caught and
skipped. -/
theorem spec_C5_amended (env : Env) (w : World) (r : ConfigRoot) (g : GroupDir)
    (grest : List GroupDir) (front : List (String × Dump)) (n : String) (d : Dump)
    (post : List (String × Dump)) (e : String)
    (h1 : w.root = some r) (h2 : r.presets = some (g :: grest))
    (h3 : g.files = front ++ (n, d) :: post)
    (h4 : ∀ f ∈ front, ∃ d', add_target_file env f.2 = .ok d')
    (h5 : add_target_file env d = .error e) :
    add_target env w =
      ({ w with root := some { r with presets := some ({ g with files := front.map (fun f => (f.1, stepTotal (add_target_file env) f.2)) ++ (n, d) :: post } :: grest) } }, some e) := by
  have hrf := runFiles_err (add_target_file env) front n d post e h4 h5
  rw [← h3] at hrf
  unfold add_target runStep
  simp only [h1, h2]
  rw [runGroups_err_first _ _ _ _ _ hrf]

/-- C5 witness: on the concrete failing tree the step aborts with the error
and leaves every file unchanged. -/
theorem spec_C5_amended_witness :
    add_target env5 w5 = (w5, some "MacroParsingError") := by
  have h := spec_C5_amended env5 w5 r5 g5 [] [] "a.json" dA [("b.json", dB)]
    "MacroParsingError" rfl rfl rfl (by simp) rfl
  exact h

/-- C6: in the mapping-key and target-annotation steps, a preset file whose
bytes fail to decode is skipped with its original contents, while (provided
no other file raises) every other preset file is fully processed by the
per-file transform, and the step returns without error. -/
theorem spec_C6 (env : Env) (w : World)
    (hmk : filesOk mapping_keys_file w = true)
    (hat : filesOk (add_target_file env) w = true) :
    mapping_keys w = (mapWorldFiles mapping_keys_file w, none)
  ∧ add_target env w = (mapWorldFiles (add_target_file env) w, none)
  ∧ ∀ d, parseFile d = none →
      mapping_keys_file d = .ok d ∧ add_target_file env d = .ok d := by
  refine ⟨runStep_ok _ _ hmk, runStep_ok _ _ hat, ?_⟩
  intro d hd
  exact ⟨by simp [mapping_keys_file, hd], by simp [add_target_file, hd]⟩

/-- C6 witness: a tree with one corrupt preset and one good preset runs both
steps without error, mapping each file independently, and the corrupt file
keeps its bytes. -/
theorem spec_C6_witness :
    mapping_keys w6 = (mapWorldFiles mapping_keys_file w6, none)
  ∧ add_target env6 w6 = (mapWorldFiles (add_target_file env6) w6, none)
  ∧ mapping_keys_file dCorrupt = .ok dCorrupt
  ∧ add_target_file env6 dCorrupt = .ok dCorrupt := by
  have h := spec_C6 env6 w6 rfl rfl
  exact ⟨h.1, h.2.1, (h.2.2 dCorrupt rfl).1, (h.2.2 dCorrupt rfl).2⟩

/-- C7 counterexample: the claim says the rewritten config file is
terminated by a trailing newline, but _update_version writes
json.dump(indent=4) without the trailing newline the preset-writing steps
append, so the rewritten bytes do not end in a newline. -/
theorem spec_C7_counterexample :
    update_version envNull w7 =
      (⟨some ⟨some (.pretty (JVal.obj [("version", JVal.str "1.4.0"), ("autoload", JVal.bool true)])), none, none, []⟩, none⟩, none)
    ∧ dumpEndsNL (.pretty (JVal.obj [("version", JVal.str "1.4.0"), ("autoload", JVal.bool true)])) = false := ⟨rfl, rfl⟩

/-- C7 (amended): _update_version returns silently without effect when the
config file does not exist; when it exists and parses as an object it sets
the version field and rewrites the file in place, pretty-printed, without a
trailing newline. -/
theorem spec_C7_amended (env : Env) (w : World) (r : ConfigRoot) (d : Dump)
    (fields : List (String × JVal)) :
    (w.root = none → update_version env w = (w, none))
  ∧ (w.root = some r → r.configJson = none → update_version env w = (w, none))
  ∧ (w.root = some r → r.configJson = some d → parseFile d = some (JVal.obj fields) →
      update_version env w =
        ({ w with root := some { r with configJson := some (Dump.pretty (JVal.obj (pySet fields "version" (JVal.str env.appVersion)))) } }, none)
      ∧ dumpEndsNL (Dump.pretty (JVal.obj (pySet fields "version" (JVal.str env.appVersion)))) = false) := by
  refine ⟨?_, ?_, ?_⟩
  · intro h
    simp [update_version, h]
  · intro h1 h2
    simp [update_version, h1, h2]
  · intro h1 h2 h3
    refine ⟨?_, rfl⟩
    simp [update_version, h1, h2, h3]

/-- C7 witness: a world without a config root is untouched; the concrete
config file is rewritten with the new version and no trailing newline. -/
theorem spec_C7_amended_witness :
    update_version envNull ⟨none, none⟩ = (⟨none, none⟩, none)
    ∧ update_version envNull w7 =
        (⟨some ⟨some (.pretty (JVal.obj [("version", JVal.str "1.4.0"), ("autoload", JVal.bool true)])), none, none, []⟩, none⟩, none) := by
  constructor
  · exact (spec_C7_amended envNull ⟨none, none⟩ ⟨none, none, none, []⟩ dCorrupt []).1 rfl
  · exact ((spec_C7_amended envNull w7
      ⟨some (.prettyNL (JVal.obj [("version", JVal.str "1.0.0"), ("autoload", JVal.bool true)])), none, none, []⟩
      (.prettyNL (JVal.obj [("version", JVal.str "1.0.0"), ("autoload", JVal.bool true)]))
      [("version", JVal.str "1.0.0"), ("autoload", JVal.bool true)]).2.2 rfl rfl rfl).1

/-- C8: _update_version modifies only the version field of a well-formed
config record: the file is rewritten with version set to the application
version and every other top-level setting keeps its value; nothing else in
the world changes. -/
theorem spec_C8 (env : Env) (w : World) (r : ConfigRoot) (d : Dump)
    (fields : List (String × JVal))
    (h1 : w.root = some r) (h2 : r.configJson = some d)
    (h3 : parseFile d = some (JVal.obj fields)) :
    update_version env w =
      ({ w with root := some { r with configJson := some (Dump.pretty (JVal.obj (pySet fields "version" (JVal.str env.appVersion)))) } }, none)
    ∧ ∀ k, k ≠ "version" →
        dictGet (pySet fields "version" (JVal.str env.appVersion)) k = dictGet fields k := by
  constructor
  · simp [update_version, h1, h2, h3]
  · intro k hk
    exact dictGet_pySet_ne fields "version" k (JVal.str env.appVersion) hk

/-- C8 witness: stamping the concrete config file keeps the autoload
setting with its value. -/
theorem spec_C8_witness :
    update_version envNull w7 =
      (⟨some ⟨some (.pretty (JVal.obj [("version", JVal.str "1.4.0"), ("autoload", JVal.bool true)])), none, none, []⟩, none⟩, none)
    ∧ dictGet (pySet [("version", JVal.str "1.0.0"), ("autoload", JVal.bool true)] "version" (JVal.str "1.4.0")) "autoload"
      = dictGet [("version", JVal.str "1.0.0"), ("autoload", JVal.bool true)] "autoload" := by
  have h := spec_C8 envNull w7
    ⟨some (.prettyNL (JVal.obj [("version", JVal.str "1.0.0"), ("autoload", JVal.bool true)])), none, none, []⟩
    (.prettyNL (JVal.obj [("version", JVal.str "1.0.0"), ("autoload", JVal.bool true)]))
    [("version", JVal.str "1.0.0"), ("autoload", JVal.bool true)] rfl rfl rfl
  exact ⟨h.1, h.2 "autoload" (by decide)⟩

/-- C9: _preset_path does nothing when the presets subdirectory already
exists or the config root does not exist (the directory listing is left
unchanged), and otherwise moves every top-level group directory into a
newly created presets subdirectory, preserving names and order. -/
theorem spec_C9 (w : World) (r : ConfigRoot) :
    (w.root = none → preset_path w = w)
  ∧ (w.root = some r → r.presets.isSome = true → preset_path w = w)
  ∧ (w.root = some r → r.presets = none →
      preset_path w = { w with root := some { r with presets := some r.groups, groups := [] } }) := by
  refine ⟨?_, ?_, ?_⟩
  · intro h
    simp [preset_path, h]
  · intro h1 h2
    cases hps : r.presets with
    | none => rw [hps] at h2; simp at h2
    | some ps => simp [preset_path, h1, hps]
  · intro h1 h2
    simp [preset_path, h1, h2]

/-- C9 witness: a tree whose presets directory exists is untouched; the
legacy flat tree has its single group moved under a new presets directory
with its name preserved. -/
theorem spec_C9_witness :
    preset_path w6 = w6
    ∧ preset_path wQ = ⟨some ⟨none, none, some [g6], []⟩, none⟩ := by
  constructor
  · exact (spec_C9 w6 ⟨none, none, some [g6], []⟩).2.1 rfl rfl
  · exact (spec_C9 wQ ⟨none, none, none, [g6]⟩).2.2 rfl rfl
